import Mathlib

/-!
Shallow embedding of the WaveToy-MPI repository.

Source files:
* `src/src/wavetoy_mpi_comm_basic.c` — two-rank 2D wave solver (the core).
* `src/beta/wavetoy_testreduce.c` — MPI_Reduce test utility.

Modelling conventions:
* C `double` values are modelled as exact rationals `ℚ` (for the solver
  pipeline, which must be executable) and as reals `ℝ` where the
  transcendental initial condition `exp` is the subject of a claim.
* A 2D field is a total function `ℤ → ℤ → ℚ`; `malloc`ed storage is
  modelled as zero-initialised (cells never written stay at `0`).
* C `for` loops become left folds over explicit integer ranges.
* The element type of the solver's buffers is declared `int` in the
  source even though every value stored is a `double`; that discrepancy
  is modelled separately (`setIntC` below) and the rest of the pipeline
  is modelled with exact scalar storage.
-/

namespace WaveToy

/-- A rank-local 2D field, indexed `field i j` with `i` the x index
(column) and `j` the y index (row), mirroring `u[i][j]` in the source. -/
def Field : Type := ℤ → ℤ → ℚ

/-- Point update `u[i][j] = v`. -/
def setC (f : Field) (i j : ℤ) (v : ℚ) : Field :=
  fun a b => if a = i ∧ b = j then v else f a b

/-- The all-zero field: models freshly allocated storage. -/
def zeroField : Field := fun _ _ => 0

/-- The list `[lo, lo+1, ..., hi]` (empty when `hi < lo`). -/
def intRange (lo hi : ℤ) : List ℤ :=
  (List.range (hi + 1 - lo).toNat).map (fun (k : ℕ) => lo + (k : ℤ))

/-- `forI lo hi body a` runs `for (i = lo; i <= hi; i++) a = body a i`. -/
def forI {α : Type} (lo hi : ℤ) (body : α → ℤ → α) (a : α) : α :=
  (intRange lo hi).foldl body a

theorem mem_intRange {lo hi b : ℤ} : b ∈ intRange lo hi ↔ lo ≤ b ∧ b ≤ hi := by
  unfold intRange
  constructor
  · intro h
    obtain ⟨k, hk, hkb⟩ := List.mem_map.mp h
    rw [List.mem_range] at hk
    omega
  · intro h
    refine List.mem_map.mpr ⟨(b - lo).toNat, ?_, ?_⟩
    · rw [List.mem_range]; omega
    · omega

/-- A sweep writing `v j` along a fixed column `i` touches exactly the
cells `(i, b)` with `b` in the index list. -/
theorem foldl_set_row (l : List ℤ) (i : ℤ) (v : ℤ → ℚ) (f : Field)
    (a b : ℤ) :
    (l.foldl (fun f j => setC f i j (v j)) f) a b
      = if a = i ∧ b ∈ l then v b else f a b := by
  induction l generalizing f with
  | nil => simp
  | cons j t ih =>
    simp only [List.foldl_cons, List.mem_cons]
    rw [ih]
    by_cases ha : a = i
    · subst ha
      by_cases hbt : b ∈ t
      · simp [hbt]
      · by_cases hbj : b = j
        · subst hbj; simp [hbt, setC]
        · simp [hbt, hbj, setC, Ne.symm]
    · simp [ha, setC]

/-- A sweep writing `w i` along a fixed row `j` touches exactly the
cells `(a, j)` with `a` in the index list. -/
theorem foldl_set_col (l : List ℤ) (j : ℤ) (w : ℤ → ℚ) (f : Field)
    (a b : ℤ) :
    (l.foldl (fun f i => setC f i j (w i)) f) a b
      = if b = j ∧ a ∈ l then w a else f a b := by
  induction l generalizing f with
  | nil => simp
  | cons i t ih =>
    simp only [List.foldl_cons, List.mem_cons]
    rw [ih]
    by_cases hb : b = j
    · subst hb
      by_cases hat : a ∈ t
      · simp [hat]
      · by_cases hai : a = i
        · subst hai; simp [hat, setC]
        · simp [hat, hai, setC, Ne.symm]
    · simp [hb, setC]

/-- A doubly nested sweep writing `g i j` over a product of index lists
is the pointwise function `g` inside the rectangle and the identity
outside it. -/
theorem foldl_set_grid (li lj : List ℤ) (g : ℤ → ℤ → ℚ) (f : Field)
    (a b : ℤ) :
    (li.foldl (fun f i => lj.foldl (fun f j => setC f i j (g i j)) f) f) a b
      = if a ∈ li ∧ b ∈ lj then g a b else f a b := by
  induction li generalizing f with
  | nil => simp
  | cons i t ih =>
    simp only [List.foldl_cons, List.mem_cons]
    rw [ih, foldl_set_row]
    by_cases hat : a ∈ t
    · by_cases hbl : b ∈ lj <;> simp [hat, hbl]
    · by_cases hai : a = i
      · subst hai
        by_cases hbl : b ∈ lj <;> simp [hat, hbl]
      · simp [hat, hai]

/-- `nxnom = nx/nxprocs` with `nxprocs = nprocs = 2`: nominal number of
x points per patch (integer division, as in the source). -/
def nxnomOf (nx : ℕ) : ℤ := ((nx / 2 : ℕ) : ℤ)

/-- `gixs = worker*nxnom + 1`: first global column owned by a rank. -/
def gixsOf (nx : ℕ) (worker : ℤ) : ℤ := worker * nxnomOf nx + 1

/-- `gixe = gixs + nxnom - 1`: last global column owned by a rank. -/
def gixeOf (nx : ℕ) (worker : ℤ) : ℤ := gixsOf nx worker + nxnomOf nx - 1

/-- The set of global columns owned by a rank. -/
def ownedCols (nx : ℕ) (worker : ℤ) : Finset ℤ :=
  Finset.Icc (gixsOf nx worker) (gixeOf nx worker)

/-- `gnx = ixe - ixs + 1 = nxnom + 2`: ghost-inclusive x extent, the
number of row pointers allocated for each of `uold`, `ucur`, `unew`. -/
def gnxOf (nx : ℕ) : ℤ := nxnomOf nx + 2

/-- The indices written by the row-pointer setup loop
`for (i=0; i<=gnx; i++) uold[i] = &uold1D[i*gny];`. -/
def rowSetupIdx (nx : ℕ) : List ℤ := intRange 0 (gnxOf nx)

/-- Wave speed `c = 1.0`. -/
def cSpeed : ℚ := 1

/-- `csq = c*c`. -/
def csqC : ℚ := cSpeed * cSpeed

/-- `dt = 1.0/(double)(nsteps-1)` (the source's `nsteps` is the
compile-time step-count constant). -/
def dtOf (nsteps : ℕ) : ℚ := 1 / (((nsteps : ℤ) - 1 : ℤ) : ℚ)

/-- `dx = 2.0/(double)(nx+1)`. -/
def dxOf (nx : ℕ) : ℚ := 2 / (((nx : ℚ)) + 1)

/-- `dtdx = dt/dx`, `dtdxsq = dtdx*dtdx`. -/
def dtdxsqOf (nx nsteps : ℕ) : ℚ := (dtOf nsteps / dxOf nx) * (dtOf nsteps / dxOf nx)

/-- The per-rank state: the three time-level buffers `uold` (previous),
`ucur` (current), `unew` (next). -/
structure St where
  uold : Field
  ucur : Field
  unew : Field

/-- Freshly allocated state (all cells zero). -/
def initSt : St := ⟨zeroField, zeroField, zeroField⟩

/-- The `uold` initialization loop of the source, parametric in the
pointwise initial-data function `u0` (the source computes
`u0 i j = exp(-x*x/0.01 - y*y/0.01)`; that concrete function is modelled
over `ℝ` separately below).  Loops over all global `(i,j)` and writes
`uold[i-gixs+1][j] = u0 i j` for the cells owned by this rank. -/
def initUoldRank (nx ny : ℕ) (worker : ℤ) (u0 : ℤ → ℤ → ℚ) (f : Field) : Field :=
  forI 1 nx (fun f i =>
    forI 1 ny (fun f j =>
      if gixsOf nx worker ≤ i ∧ i ≤ gixeOf nx worker then
        setC f (i - gixsOf nx worker + 1) j (u0 i j)
      else f) f) f

/-- One paired halo exchange on a single buffer, both ranks at once.
Faithful to the source's element window: each message is `ny` values
starting at row offset `0` of the column (`&u[ixem][0]`, `&u[1][0]`),
received at row offset `0` (`&u[ixe][0]`, `&u[0][0]`).  `b0` is rank 0's
buffer, `b1` rank 1's; both payloads are pre-exchange values, which
matches the source's send-before-receive / receive-before-send pairing. -/
def exchangeBuf (ny : ℕ) (nxn : ℤ) (b0 b1 : Field) : Field × Field :=
  (forI 0 ((ny : ℤ) - 1) (fun f m => setC f (nxn + 1) m (b1 1 m)) b0,
   forI 0 ((ny : ℤ) - 1) (fun f m => setC f 0 m (b0 nxn m)) b1)

/-- The bootstrap loop computing `ucur` from `uold` with `dudt = 0`:
`ucur[i][j] = uold[i][j] - 2.0*dt*dudt + 0.5*csq*dtdxsq*(...)` over
`i = 1..nxnom`, `j = 1..nynom`. -/
def bootstrapUcur (nxn nyn : ℤ) (dt csq dtdxsq : ℚ) (s : St) : St :=
  let cur :=
    forI 1 nxn (fun f i =>
      forI 1 nyn (fun f j =>
        setC f i j (s.uold i j - 2 * dt * 0
          + (1/2) * csq * dtdxsq *
            (s.uold (i+1) j - 2 * s.uold i j + s.uold (i-1) j
              + s.uold i (j+1) - 2 * s.uold i j + s.uold i (j-1)))) f) s.ucur
  { s with ucur := cur }

/-- Rank 0's Dirichlet boundary application to one buffer: corners, then
column `0` for `j = 1..iyem`, then rows `0` and `iye` for `i = 1..ixem`
(`ixe = nxn+1`, `iye = ny+1`).  The source applies the identical
assignments to `uold` and `ucur` in the same statements; this factors
them per buffer. -/
def bcRank0 (nxn ny : ℤ) (f : Field) : Field :=
  let f := setC f 0 0 0
  let f := setC f 0 (ny + 1) 0
  let f := setC f (nxn + 1) 0 0
  let f := setC f (nxn + 1) (ny + 1) 0
  let f := forI 1 ny (fun f j => setC f 0 j 0) f
  let f := forI 1 nxn (fun f i => setC f i 0 0) f
  forI 1 nxn (fun f i => setC f i (ny + 1) 0) f

/-- Rank 1's Dirichlet boundary application to one buffer: corners, then
column `ixe = nxn+1` for `j = 1..iyem`, then rows `0` and `iye` for
`i = 1..ixem`. -/
def bcRank1 (nxn ny : ℤ) (f : Field) : Field :=
  let f := setC f (nxn + 1) 0 0
  let f := setC f (nxn + 1) (ny + 1) 0
  let f := setC f 0 0 0
  let f := setC f 0 (ny + 1) 0
  let f := forI 1 ny (fun f j => setC f (nxn + 1) j 0) f
  let f := forI 1 nxn (fun f i => setC f i 0 0) f
  forI 1 nxn (fun f i => setC f i (ny + 1) 0) f

/-- Boundary application to a rank's state: the same zeroing is applied
to both the `uold` and `ucur` buffers, per the source. -/
def applyBCs (worker : ℤ) (nxn ny : ℤ) (s : St) : St :=
  if worker = 0 then
    { s with uold := bcRank0 nxn ny s.uold, ucur := bcRank0 nxn ny s.ucur }
  else
    { s with uold := bcRank1 nxn ny s.uold, ucur := bcRank1 nxn ny s.ucur }

/-- The stencil loop writing `unew` over `i = 1..nxnom`, `j = 1..ny`:
`unew[i][j] = 2*ucur[i][j] + uold[i][j] + csq*dtdxsq*(ucur[i+1][j] -
2.0*ucur[i][j] + ucur[i-1][j] + ucur[i][j+1] - 2.0*ucur[i][j] +
ucur[i][j-1])`. -/
def computeUnew (nxn ny : ℤ) (csq dtdxsq : ℚ) (uold ucur unew : Field) : Field :=
  forI 1 nxn (fun f i =>
    forI 1 ny (fun f j =>
      setC f i j (2 * ucur i j + uold i j
        + csq * dtdxsq *
          (ucur (i+1) j - 2 * ucur i j + ucur (i-1) j
            + ucur i (j+1) - 2 * ucur i j + ucur i (j-1)))) f) unew

/-- The stencil update on a rank's state. -/
def stencilSt (nxn ny : ℤ) (csq dtdxsq : ℚ) (s : St) : St :=
  { s with unew := computeUnew nxn ny csq dtdxsq s.uold s.ucur s.unew }

/-- The body of the rotation loop at cell `(i,j)`:
`uold[i][j] = ucur[i][j]; ucur[i][j] = unew[i][j];`. -/
def rotBody (i : ℤ) (s : St) (j : ℤ) : St :=
  { s with uold := setC s.uold i j (s.ucur i j),
           ucur := setC s.ucur i j (s.unew i j) }

/-- The rotation loop: for each interior cell, `uold[i][j] = ucur[i][j];
ucur[i][j] = unew[i][j];` (fused, exactly as in the source). -/
def rotateSt (nxn ny : ℤ) (s : St) : St :=
  forI 1 nxn (fun s i => forI 1 ny (rotBody i) s) s

/-- One iteration of the source's time loop for the pair of ranks:
boundary application on each rank, halo exchange of `uold` then of
`ucur`, stencil update, rotation. -/
def stepPair (nx ny nsteps : ℕ) (p : St × St) : St × St :=
  let nxn := nxnomOf nx
  let s0 := applyBCs 0 nxn ny p.1
  let s1 := applyBCs 1 nxn ny p.2
  let eo := exchangeBuf ny nxn s0.uold s1.uold
  let s0 := { s0 with uold := eo.1 }
  let s1 := { s1 with uold := eo.2 }
  let ec := exchangeBuf ny nxn s0.ucur s1.ucur
  let s0 := { s0 with ucur := ec.1 }
  let s1 := { s1 with ucur := ec.2 }
  let s0 := stencilSt nxn ny csqC (dtdxsqOf nx nsteps) s0
  let s1 := stencilSt nxn ny csqC (dtdxsqOf nx nsteps) s1
  (rotateSt nxn ny s0, rotateSt nxn ny s1)

/-- The full two-rank run: initialization of `uold` on each rank, the
bootstrap exchange of `uold`, the bootstrap computation of `ucur`, then
`iters` iterations of the time loop. -/
def runParallel (nx ny nsteps : ℕ) (u0 : ℤ → ℤ → ℚ) (iters : ℕ) : St × St :=
  let nxn := nxnomOf nx
  let s0 : St := { initSt with uold := initUoldRank nx ny 0 u0 zeroField }
  let s1 : St := { initSt with uold := initUoldRank nx ny 1 u0 zeroField }
  let e := exchangeBuf ny nxn s0.uold s1.uold
  let s0 := { s0 with uold := e.1 }
  let s1 := { s1 with uold := e.2 }
  let s0 := bootstrapUcur nxn ny (dtOf nsteps) csqC (dtdxsqOf nx nsteps) s0
  let s1 := bootstrapUcur nxn ny (dtOf nsteps) csqC (dtdxsqOf nx nsteps) s1
  (stepPair nx ny nsteps)^[iters] (s0, s1)

/-- Modelled from the spec (the repository has no single-process
reference implementation): the serial reference of spec section 8,
operating on the full grid with the same initialization function, the
section 4.6 bootstrap and recurrence (with its literal `+previous`
term), and Dirichlet zeroing of the full physical border each step. -/
def initUoldSerial (nx ny : ℕ) (u0 : ℤ → ℤ → ℚ) (f : Field) : Field :=
  forI 1 nx (fun f i => forI 1 ny (fun f j => setC f i j (u0 i j)) f) f

/-- Modelled from the spec: Dirichlet zeroing of all four physical
edges of the full serial grid. -/
def bcSerial (nx ny : ℤ) (f : Field) : Field :=
  let f := forI 0 (nx + 1) (fun f i => setC f i 0 0) f
  let f := forI 0 (nx + 1) (fun f i => setC f i (ny + 1) 0) f
  let f := forI 0 (ny + 1) (fun f j => setC f 0 j 0) f
  forI 0 (ny + 1) (fun f j => setC f (nx + 1) j 0) f

/-- Modelled from the spec: one serial time step — boundary zeroing on
`uold` and `ucur`, the section 4.6 recurrence over the full interior,
rotation. -/
def stepSerial (nx ny nsteps : ℕ) (s : St) : St :=
  let s := { s with uold := bcSerial nx ny s.uold, ucur := bcSerial nx ny s.ucur }
  let s := stencilSt nx ny csqC (dtdxsqOf nx nsteps) s
  rotateSt nx ny s

/-- Modelled from the spec: the full serial reference run. -/
def runSerial (nx ny nsteps : ℕ) (u0 : ℤ → ℤ → ℚ) (iters : ℕ) : St :=
  let s : St := { initSt with uold := initUoldSerial nx ny u0 zeroField }
  let s := bootstrapUcur nx ny (dtOf nsteps) csqC (dtdxsqOf nx nsteps) s
  (stepSerial nx ny nsteps)^[iters] s

/-- Stitching the two ranks' local fields together by global column
index: global column `i` maps to rank 0's local column `i` when
`i ≤ nxnom`, and to rank 1's local column `i - nxnom` otherwise. -/
def stitched (nx : ℕ) (p : St × St) : ℤ → ℤ → ℚ :=
  fun i j => if i ≤ nxnomOf nx then p.1.ucur i j else p.2.ucur (i - nxnomOf nx) j

/-- The x coordinate the source assigns to global column `i`:
`x = -(double)(1 + nx + 2*i)/(double)(1 + nx)`. -/
def xCoord (nx : ℕ) (i : ℤ) : ℚ := -((1 + (nx : ℚ) + 2 * (i : ℚ)) / (1 + (nx : ℚ)))

/-- The y coordinate the source assigns to global row `j`:
`y = -(double)(1 + ny + 2*j)/(double)(1 + ny)`. -/
def yCoord (ny : ℕ) (j : ℤ) : ℚ := -((1 + (ny : ℚ) + 2 * (j : ℚ)) / (1 + (ny : ℚ)))

/-- The initial datum the source computes at global `(i,j)`:
`u = exp(-x*x/0.01 - y*y/0.01)`. -/
noncomputable def uInitGauss (nx ny : ℕ) (i j : ℤ) : ℝ :=
  Real.exp (-((xCoord nx i : ℝ) * (xCoord nx i : ℝ)) / 0.01
    - ((yCoord ny j : ℝ) * (yCoord ny j : ℝ)) / 0.01)

/-- An integer-valued field: the buffers as actually declared in the
source (`int **uold, **unew, **ucur;` over `int *` backing stores). -/
def IntField : Type := ℤ → ℤ → ℤ

/-- The all-zero integer field. -/
def zeroIntField : IntField := fun _ _ => 0

/-- Storing a floating-point scalar into a cell of the declared `int`
buffers: C's `double`-to-`int` conversion truncates toward zero. -/
def setIntC (s : IntField) (i j : ℤ) (v : ℚ) : IntField :=
  fun a b => if a = i ∧ b = j then Int.tdiv v.num (v.den : ℤ) else s a b

/-- Reading a cell of the declared `int` buffers back as a scalar. -/
def getIntC (s : IntField) (i j : ℤ) : ℚ := ((s i j : ℤ) : ℚ)

/-- `nxprocs = (nprocs*nx)/(nx+ny)` in `wavetoy_testreduce.c`
(C integer division truncates toward zero). -/
def nxprocsOf (nprocs nx ny : ℤ) : ℤ := Int.tdiv (nprocs * nx) (nx + ny)

/-- `nyprocs = (nprocs*ny)/(nx+ny)` in `wavetoy_testreduce.c`. -/
def nyprocsOf (nprocs nx ny : ℤ) : ℤ := Int.tdiv (nprocs * ny) (nx + ny)

/-- The abort guard of `wavetoy_testreduce.c`:
`if (nxprocs == 0 || nyprocs == 0 || nxnom == 0 || nynom == 0)
MPI_Abort(...)`.  At the point of the test, `nxnom` and `nynom` have not
yet been assigned (they are computed from `nxprocs`/`nyprocs` only after
the guard), so the guard reads the indeterminate initial contents of
those variables, modelled here as the parameters `nxnom0`, `nynom0`. -/
def reduceAborts (nx ny nprocs nxnom0 nynom0 : ℤ) : Bool :=
  decide (nxprocsOf nprocs nx ny = 0) || decide (nyprocsOf nprocs nx ny = 0)
    || decide (nxnom0 = 0) || decide (nynom0 = 0)

/-- A blocking point-to-point MPI operation: `send peer tag count` or
`recv peer tag count`. -/
inductive MpiOp : Type
  | send (peer tag count : ℕ) : MpiOp
  | recv (peer tag count : ℕ) : MpiOp

/-- Rank 0's halo-exchange call on one buffer: send its last interior
column to rank 1 with tag 0, then receive its ghost column from rank 1
with tag 1 (`MPI_Send(..., ny, MPI_DOUBLE, 1, 0, ...)` then
`MPI_Recv(..., ny, MPI_DOUBLE, 1, 1, ...)`). -/
def rank0Halo (ny : ℕ) : List MpiOp := [.send 1 0 ny, .recv 1 1 ny]

/-- Rank 1's halo-exchange call on one buffer: receive its ghost column
from rank 0 with tag 0, then send its first interior column to rank 0
with tag 1. -/
def rank1Halo (ny : ℕ) : List MpiOp := [.recv 0 0 ny, .send 0 1 ny]

/-- Synchronous blocking rendezvous execution of two ranks' operation
sequences, rank 0's ops on the left and rank 1's on the right.  Each
blocking call suspends its rank until the other rank issues the
matching converse call with the same tag and count; the run completes
(`true`) when both sequences are consumed, and deadlocks (`false`) when
the two pending operations do not match. -/
def syncRun : List MpiOp → List MpiOp → Bool
  | [], [] => true
  | MpiOp.send p t c :: r0, MpiOp.recv q u d :: r1 =>
      (p == 1) && (q == 0) && (t == u) && (c == d) && syncRun r0 r1
  | MpiOp.recv p t c :: r0, MpiOp.send q u d :: r1 =>
      (p == 1) && (q == 0) && (t == u) && (c == d) && syncRun r0 r1
  | _, _ => false

theorem intRange_nodup (lo hi : ℤ) : (intRange lo hi).Nodup := by
  unfold intRange
  refine List.Nodup.map ?_ (List.nodup_range _)
  intro x y h
  dsimp only at h
  omega

/-- Pointwise reading of rank 0's buffer after one halo exchange. -/
theorem exchangeBuf_fst (ny : ℕ) (nxn : ℤ) (b0 b1 : Field) (a b : ℤ) :
    (exchangeBuf ny nxn b0 b1).1 a b
      = if a = nxn + 1 ∧ 0 ≤ b ∧ b ≤ (ny : ℤ) - 1 then b1 1 b else b0 a b := by
  unfold exchangeBuf forI
  dsimp only
  rw [foldl_set_row]
  simp [mem_intRange]

/-- Pointwise reading of rank 1's buffer after one halo exchange. -/
theorem exchangeBuf_snd (ny : ℕ) (nxn : ℤ) (b0 b1 : Field) (a b : ℤ) :
    (exchangeBuf ny nxn b0 b1).2 a b
      = if a = 0 ∧ 0 ≤ b ∧ b ≤ (ny : ℤ) - 1 then b0 nxn b else b1 a b := by
  unfold exchangeBuf forI
  dsimp only
  rw [foldl_set_row]
  simp [mem_intRange]

/-- Pointwise reading of `ucur` after the bootstrap loop. -/
theorem bootstrapUcur_ucur (nxn nyn : ℤ) (dt csq dtdxsq : ℚ) (s : St) (a b : ℤ) :
    (bootstrapUcur nxn nyn dt csq dtdxsq s).ucur a b
      = if 1 ≤ a ∧ a ≤ nxn ∧ 1 ≤ b ∧ b ≤ nyn then
          s.uold a b - 2 * dt * 0
            + (1/2) * csq * dtdxsq *
              (s.uold (a+1) b - 2 * s.uold a b + s.uold (a-1) b
                + s.uold a (b+1) - 2 * s.uold a b + s.uold a (b-1))
        else s.ucur a b := by
  unfold bootstrapUcur forI
  dsimp only
  rw [foldl_set_grid]
  simp only [mem_intRange]
  by_cases h : 1 ≤ a ∧ a ≤ nxn ∧ 1 ≤ b ∧ b ≤ nyn
  · rw [if_pos ⟨⟨h.1, h.2.1⟩, h.2.2⟩, if_pos h]
  · rw [if_neg (by tauto), if_neg h]

theorem bootstrapUcur_uold (nxn nyn : ℤ) (dt csq dtdxsq : ℚ) (s : St) :
    (bootstrapUcur nxn nyn dt csq dtdxsq s).uold = s.uold := rfl

theorem bootstrapUcur_unew (nxn nyn : ℤ) (dt csq dtdxsq : ℚ) (s : St) :
    (bootstrapUcur nxn nyn dt csq dtdxsq s).unew = s.unew := rfl

/-- Pointwise reading of the buffer produced by the stencil loop. -/
theorem computeUnew_apply (nxn ny : ℤ) (csq dtdxsq : ℚ) (uold ucur unew : Field)
    (a b : ℤ) :
    computeUnew nxn ny csq dtdxsq uold ucur unew a b
      = if 1 ≤ a ∧ a ≤ nxn ∧ 1 ≤ b ∧ b ≤ ny then
          2 * ucur a b + uold a b
            + csq * dtdxsq *
              (ucur (a+1) b - 2 * ucur a b + ucur (a-1) b
                + ucur a (b+1) - 2 * ucur a b + ucur a (b-1))
        else unew a b := by
  unfold computeUnew forI
  rw [foldl_set_grid]
  simp only [mem_intRange]
  by_cases h : 1 ≤ a ∧ a ≤ nxn ∧ 1 ≤ b ∧ b ≤ ny
  · rw [if_pos ⟨⟨h.1, h.2.1⟩, h.2.2⟩, if_pos h]
  · rw [if_neg (by tauto), if_neg h]

/-- Pointwise reading of a buffer after rank 0's boundary application. -/
theorem bcRank0_apply (nxn ny : ℤ) (f : Field) (a b : ℤ) :
    bcRank0 nxn ny f a b
      = if (b = ny + 1 ∧ 1 ≤ a ∧ a ≤ nxn) ∨ (b = 0 ∧ 1 ≤ a ∧ a ≤ nxn)
          ∨ (a = 0 ∧ 1 ≤ b ∧ b ≤ ny)
          ∨ (a = nxn + 1 ∧ b = ny + 1) ∨ (a = nxn + 1 ∧ b = 0)
          ∨ (a = 0 ∧ b = ny + 1) ∨ (a = 0 ∧ b = 0)
        then 0 else f a b := by
  unfold bcRank0 forI
  rw [foldl_set_col, foldl_set_col, foldl_set_row]
  simp only [mem_intRange, setC]
  split_ifs <;> first | rfl | (exfalso; omega)

/-- Pointwise reading of a buffer after rank 1's boundary application. -/
theorem bcRank1_apply (nxn ny : ℤ) (f : Field) (a b : ℤ) :
    bcRank1 nxn ny f a b
      = if (b = ny + 1 ∧ 1 ≤ a ∧ a ≤ nxn) ∨ (b = 0 ∧ 1 ≤ a ∧ a ≤ nxn)
          ∨ (a = nxn + 1 ∧ 1 ≤ b ∧ b ≤ ny)
          ∨ (a = 0 ∧ b = ny + 1) ∨ (a = 0 ∧ b = 0)
          ∨ (a = nxn + 1 ∧ b = ny + 1) ∨ (a = nxn + 1 ∧ b = 0)
        then 0 else f a b := by
  unfold bcRank1 forI
  rw [foldl_set_col, foldl_set_col, foldl_set_row]
  simp only [mem_intRange, setC]
  split_ifs <;> first | rfl | (exfalso; omega)

/-- Pointwise reading of a buffer after the serial boundary zeroing. -/
theorem bcSerial_apply (nx ny : ℤ) (f : Field) (a b : ℤ) :
    bcSerial nx ny f a b
      = if (a = nx + 1 ∧ 0 ≤ b ∧ b ≤ ny + 1) ∨ (a = 0 ∧ 0 ≤ b ∧ b ≤ ny + 1)
          ∨ (b = ny + 1 ∧ 0 ≤ a ∧ a ≤ nx + 1) ∨ (b = 0 ∧ 0 ≤ a ∧ a ≤ nx + 1)
        then 0 else f a b := by
  unfold bcSerial forI
  rw [foldl_set_row, foldl_set_row, foldl_set_col, foldl_set_col]
  simp only [mem_intRange]
  split_ifs <;> first | rfl | (exfalso; omega)

/-- A fold of guarded row sweeps where the column written by iteration
`i` is the shifted index `i - gs + 1`. -/
theorem foldl_guarded_rows (li lj : List ℤ) (P : ℤ → Prop) [DecidablePred P]
    (gs : ℤ) (g : ℤ → ℤ → ℚ) (f : Field) (a b : ℤ) :
    (li.foldl (fun f i =>
        if P i then lj.foldl (fun f j => setC f (i - gs + 1) j (g i j)) f else f) f) a b
      = if (a + gs - 1) ∈ li ∧ P (a + gs - 1) ∧ b ∈ lj then g (a + gs - 1) b
        else f a b := by
  induction li generalizing f with
  | nil => simp
  | cons i t ih =>
    simp only [List.foldl_cons, List.mem_cons]
    rw [ih]
    by_cases hmem : (a + gs - 1) ∈ t ∧ P (a + gs - 1) ∧ b ∈ lj
    · rw [if_pos hmem, if_pos ⟨Or.inr hmem.1, hmem.2⟩]
    · rw [if_neg hmem]
      by_cases hP : P i
      · rw [if_pos hP, foldl_set_row]
        by_cases hai : a = i - gs + 1
        · have hia : a + gs - 1 = i := by omega
          by_cases hbl : b ∈ lj
          · rw [if_pos ⟨hai, hbl⟩, if_pos ⟨Or.inl hia, by rw [hia]; exact ⟨hP, hbl⟩⟩, hia]
          · rw [if_neg (by tauto), if_neg (by tauto)]
        · have hia : ¬ (a + gs - 1 = i) := by omega
          rw [if_neg (by tauto), if_neg (by tauto)]
      · by_cases hia : a + gs - 1 = i
        · rw [if_neg hP, if_neg (by rw [hia]; tauto)]
        · rw [if_neg hP, if_neg (by tauto)]

/-- Pointwise reading of a rank's `uold` buffer after initialization. -/
theorem initUoldRank_apply (nx ny : ℕ) (w : ℤ) (u0 : ℤ → ℤ → ℚ) (f : Field)
    (a b : ℤ) :
    initUoldRank nx ny w u0 f a b
      = if 1 ≤ a + gixsOf nx w - 1 ∧ a + gixsOf nx w - 1 ≤ (nx : ℤ)
          ∧ (gixsOf nx w ≤ a + gixsOf nx w - 1 ∧ a + gixsOf nx w - 1 ≤ gixeOf nx w)
          ∧ 1 ≤ b ∧ b ≤ (ny : ℤ)
        then u0 (a + gixsOf nx w - 1) b else f a b := by
  unfold initUoldRank forI
  rw [show (fun (f : Field) i =>
        (intRange 1 (ny : ℤ)).foldl (fun f j =>
          if gixsOf nx w ≤ i ∧ i ≤ gixeOf nx w then
            setC f (i - gixsOf nx w + 1) j (u0 i j)
          else f) f)
      = (fun (f : Field) i =>
          if gixsOf nx w ≤ i ∧ i ≤ gixeOf nx w then
            (intRange 1 (ny : ℤ)).foldl (fun f j => setC f (i - gixsOf nx w + 1) j (u0 i j)) f
          else f) from ?_]
  · rw [foldl_guarded_rows]
    simp only [mem_intRange]
    by_cases h : 1 ≤ a + gixsOf nx w - 1 ∧ a + gixsOf nx w - 1 ≤ (nx:ℤ)
        ∧ (gixsOf nx w ≤ a + gixsOf nx w - 1 ∧ a + gixsOf nx w - 1 ≤ gixeOf nx w)
        ∧ 1 ≤ b ∧ b ≤ (ny:ℤ)
    · rw [if_pos (by tauto), if_pos h]
    · rw [if_neg (by tauto), if_neg h]
  · funext f i
    by_cases hg : gixsOf nx w ≤ i ∧ i ≤ gixeOf nx w
    · simp only [if_pos hg]
    · simp only [if_neg hg]
      induction (intRange 1 (ny : ℤ)) generalizing f with
      | nil => rfl
      | cons j t ihl => rw [List.foldl_cons]; exact ihl _

/-- Pointwise reading of the serial `uold` buffer after initialization. -/
theorem initUoldSerial_apply (nx ny : ℕ) (u0 : ℤ → ℤ → ℚ) (f : Field) (a b : ℤ) :
    initUoldSerial nx ny u0 f a b
      = if 1 ≤ a ∧ a ≤ (nx : ℤ) ∧ 1 ≤ b ∧ b ≤ (ny : ℤ) then u0 a b else f a b := by
  unfold initUoldSerial forI
  rw [foldl_set_grid]
  simp only [mem_intRange]
  by_cases h : 1 ≤ a ∧ a ≤ (nx:ℤ) ∧ 1 ≤ b ∧ b ≤ (ny:ℤ)
  · rw [if_pos ⟨⟨h.1, h.2.1⟩, h.2.2⟩, if_pos h]
  · rw [if_neg (by tauto), if_neg h]

/-- The rotation row loop: characterization of all three buffers. -/
theorem rotRow_char (lj : List ℤ) (hlj : lj.Nodup) (i : ℤ) (s : St) :
    (∀ a b, (lj.foldl (rotBody i) s).uold a b
        = if a = i ∧ b ∈ lj then s.ucur a b else s.uold a b)
    ∧ (∀ a b, (lj.foldl (rotBody i) s).ucur a b
        = if a = i ∧ b ∈ lj then s.unew a b else s.ucur a b)
    ∧ (∀ a b, (lj.foldl (rotBody i) s).unew a b = s.unew a b) := by
  induction lj generalizing s with
  | nil => simp
  | cons j t ih =>
    obtain ⟨hjt, hnt⟩ := List.nodup_cons.mp hlj
    obtain ⟨iho, ihc, ihn⟩ := ih hnt (rotBody i s j)
    refine ⟨fun a b => ?_, fun a b => ?_, fun a b => ?_⟩
    · rw [List.foldl_cons, iho a b]
      simp only [rotBody, setC, List.mem_cons]
      by_cases ha : a = i
      · subst ha
        by_cases hbt : b ∈ t
        · have hbj : ¬ b = j := fun hbj => hjt (hbj ▸ hbt)
          simp [hbt, hbj]
        · by_cases hbj : b = j
          · subst hbj; simp [hbt]
          · simp [hbt, hbj]
      · simp [ha]
    · rw [List.foldl_cons, ihc a b]
      simp only [rotBody, setC, List.mem_cons]
      by_cases ha : a = i
      · subst ha
        by_cases hbt : b ∈ t
        · have hbj : ¬ b = j := fun hbj => hjt (hbj ▸ hbt)
          simp [hbt, hbj]
        · by_cases hbj : b = j
          · subst hbj; simp [hbt]
          · simp [hbt, hbj]
      · simp [ha]
    · rw [List.foldl_cons, ihn a b]
      simp [rotBody]

/-- The full rotation loop: characterization of all three buffers. -/
theorem rotGrid_char (li lj : List ℤ) (hli : li.Nodup) (hlj : lj.Nodup) (s : St) :
    (∀ a b, (li.foldl (fun s i => lj.foldl (rotBody i) s) s).uold a b
        = if a ∈ li ∧ b ∈ lj then s.ucur a b else s.uold a b)
    ∧ (∀ a b, (li.foldl (fun s i => lj.foldl (rotBody i) s) s).ucur a b
        = if a ∈ li ∧ b ∈ lj then s.unew a b else s.ucur a b)
    ∧ (∀ a b, (li.foldl (fun s i => lj.foldl (rotBody i) s) s).unew a b = s.unew a b) := by
  induction li generalizing s with
  | nil => simp
  | cons i t ih =>
    obtain ⟨hit, hnt⟩ := List.nodup_cons.mp hli
    obtain ⟨ro, rc, rn⟩ := rotRow_char lj hlj i s
    obtain ⟨iho, ihc, ihn⟩ := ih hnt (lj.foldl (rotBody i) s)
    refine ⟨fun a b => ?_, fun a b => ?_, fun a b => ?_⟩
    · rw [List.foldl_cons, iho a b, rc a b, ro a b]
      simp only [List.mem_cons]
      by_cases hat : a ∈ t
      · have hai : ¬ a = i := fun hai => hit (hai ▸ hat)
        by_cases hbl : b ∈ lj <;> simp [hat, hbl, hai]
      · by_cases hai : a = i
        · subst hai
          by_cases hbl : b ∈ lj <;> simp [hat, hbl]
        · simp [hat, hai]
    · rw [List.foldl_cons, ihc a b, rn a b, rc a b]
      simp only [List.mem_cons]
      by_cases hat : a ∈ t
      · by_cases hbl : b ∈ lj <;> simp [hat, hbl]
      · by_cases hai : a = i
        · subst hai
          by_cases hbl : b ∈ lj <;> simp [hat, hbl]
        · simp [hat, hai]
    · rw [List.foldl_cons, ihn a b, rn a b]

/-- Pointwise reading of `uold` after the rotation loop. -/
theorem rotateSt_uold (nxn ny : ℤ) (s : St) (a b : ℤ) :
    (rotateSt nxn ny s).uold a b
      = if 1 ≤ a ∧ a ≤ nxn ∧ 1 ≤ b ∧ b ≤ ny then s.ucur a b else s.uold a b := by
  unfold rotateSt forI
  rw [(rotGrid_char (intRange 1 nxn) (intRange 1 ny)
      (intRange_nodup 1 nxn) (intRange_nodup 1 ny) s).1 a b]
  simp only [mem_intRange]
  by_cases h : 1 ≤ a ∧ a ≤ nxn ∧ 1 ≤ b ∧ b ≤ ny
  · rw [if_pos ⟨⟨h.1, h.2.1⟩, h.2.2⟩, if_pos h]
  · rw [if_neg (by tauto), if_neg h]

/-- Pointwise reading of `ucur` after the rotation loop. -/
theorem rotateSt_ucur (nxn ny : ℤ) (s : St) (a b : ℤ) :
    (rotateSt nxn ny s).ucur a b
      = if 1 ≤ a ∧ a ≤ nxn ∧ 1 ≤ b ∧ b ≤ ny then s.unew a b else s.ucur a b := by
  unfold rotateSt forI
  rw [(rotGrid_char (intRange 1 nxn) (intRange 1 ny)
      (intRange_nodup 1 nxn) (intRange_nodup 1 ny) s).2.1 a b]
  simp only [mem_intRange]
  by_cases h : 1 ≤ a ∧ a ≤ nxn ∧ 1 ≤ b ∧ b ≤ ny
  · rw [if_pos ⟨⟨h.1, h.2.1⟩, h.2.2⟩, if_pos h]
  · rw [if_neg (by tauto), if_neg h]

/-- `unew` is untouched by the rotation loop. -/
theorem rotateSt_unew (nxn ny : ℤ) (s : St) (a b : ℤ) :
    (rotateSt nxn ny s).unew a b = s.unew a b := by
  unfold rotateSt forI
  exact (rotGrid_char (intRange 1 nxn) (intRange 1 ny)
      (intRange_nodup 1 nxn) (intRange_nodup 1 ny) s).2.2 a b

/-- `exp (-t)` is at most `(1+t)⁻¹` for nonnegative `t`. -/
theorem exp_neg_le_inv (t : ℝ) (ht : 0 ≤ t) : Real.exp (-t) ≤ (1 + t)⁻¹ := by
  rw [Real.exp_neg]
  exact inv_anti₀ (by linarith) (by linarith [Real.add_one_le_exp t])

/-- The constant-one initial datum, used as concrete initial data when
exhibiting the divergence between the two-rank run and the serial
reference. -/
def onesInit : ℤ → ℤ → ℚ := fun _ _ => 1

/-- The constant-one field. -/
def onesF : Field := fun _ _ => 1

/-- A concrete pre-exchange buffer for rank 1: value `5` at local cell
`(1,4)` (first interior column, row `ny` for `ny = 4`) and `2`
everywhere else. -/
def colProbe : Field := fun i j => if i = 1 ∧ j = 4 then 5 else 2


/-! ## The claims -/

/-- Claim C2 (code_bug): the spec says the three buffers store
floating-point scalars so that set-then-get is the identity, but the
source declares them `int **` (over `int *` backing stores), so storing
a `double` truncates it: writing `1/2` to cell `(1,1)` and reading it
back yields `0`, not `1/2`. -/
theorem c2_int_buffer_truncates :
    getIntC (setIntC zeroIntField 1 1 (1/2)) 1 1 = 0 ∧ ((0 : ℚ) ≠ 1/2) := by
  constructor
  · norm_num [getIntC, setIntC, zeroIntField]
    decide
  · norm_num

/-- Claim C3 (counterexample): on the `nx = ny = 4` grid the x
coordinate the source assigns to global column `2` (a cell nearest the
origin) is `-9/5`, which does not lie in `(-1,1)`, and the initial
value at cell `(2,2)` is below `1/2`, hence not close to `1.0`. -/
theorem c3_init_not_as_claimed :
    xCoord 4 2 = -9/5 ∧ ¬(-1 < xCoord 4 2) ∧ uInitGauss 4 4 2 2 < 1/2 := by
  refine ⟨by norm_num [xCoord], by norm_num [xCoord], ?_⟩
  unfold uInitGauss
  have hx : ((xCoord 4 2 : ℚ) : ℝ) = -9/5 := by norm_num [xCoord]
  have hy : ((yCoord 4 2 : ℚ) : ℝ) = -9/5 := by norm_num [yCoord]
  rw [hx, hy]
  have h1 : (-((-9/5 : ℝ) * (-9/5 : ℝ))/0.01 - ((-9/5 : ℝ) * (-9/5 : ℝ))/0.01 : ℝ)
      = -648 := by norm_num
  rw [h1]
  calc Real.exp (-648) ≤ (1 + 648)⁻¹ := exp_neg_le_inv 648 (by norm_num)
    _ < 1/2 := by norm_num

/-- Claim C3 (corrected): the Initializer sets the "previous" buffer to
`exp(-x²/0.01 - y²/0.01)` where `x = -(1+nx+2i)/(1+nx)` and
`y = -(1+ny+2j)/(1+ny)`; this affine image lies below `-1` (not in
`(-1,1)`) for every interior column, and for `nx = ny = 4` every
interior cell — the one nearest the origin included — receives a value
below `1/100`, close to `0.0` rather than `1.0`. -/
theorem c3_init_gaussian_amended (i j : ℤ) (hi : 1 ≤ i) (hi4 : i ≤ 4)
    (hj : 1 ≤ j) (hj4 : j ≤ 4) :
    xCoord 4 i < -1 ∧ uInitGauss 4 4 i j < 1/100 := by
  have hi' : (1:ℚ) ≤ (i:ℚ) := by exact_mod_cast hi
  have hj' : (1:ℚ) ≤ (j:ℚ) := by exact_mod_cast hj
  have hqx : xCoord 4 i ≤ -7/5 := by
    unfold xCoord
    have h4 : ((4:ℕ):ℚ) = 4 := by norm_num
    rw [h4]
    linarith
  have hqy : yCoord 4 j ≤ -7/5 := by
    unfold yCoord
    have h4 : ((4:ℕ):ℚ) = 4 := by norm_num
    rw [h4]
    linarith
  constructor
  · linarith
  · unfold uInitGauss
    have hXR : ((xCoord 4 i : ℚ) : ℝ) ≤ -7/5 := by
      calc ((xCoord 4 i : ℚ) : ℝ) ≤ (((-7/5 : ℚ)) : ℝ) := by exact_mod_cast hqx
        _ = -7/5 := by norm_num
    have hYR : ((yCoord 4 j : ℚ) : ℝ) ≤ -7/5 := by
      calc ((yCoord 4 j : ℚ) : ℝ) ≤ (((-7/5 : ℚ)) : ℝ) := by exact_mod_cast hqy
        _ = -7/5 := by norm_num
    have hX2 : (49:ℝ)/25 ≤ ((xCoord 4 i : ℚ) : ℝ) * ((xCoord 4 i : ℚ) : ℝ) := by
      nlinarith [hXR]
    have hY2 : (49:ℝ)/25 ≤ ((yCoord 4 j : ℚ) : ℝ) * ((yCoord 4 j : ℚ) : ℝ) := by
      nlinarith [hYR]
    have harg : -(((xCoord 4 i : ℚ):ℝ) * ((xCoord 4 i : ℚ):ℝ))/0.01
        - (((yCoord 4 j : ℚ):ℝ) * ((yCoord 4 j : ℚ):ℝ))/0.01 ≤ -196 := by
      have h001 : (0.01:ℝ) = 1/100 := by norm_num
      have hdiv : ∀ z : ℝ, z / (1/100 : ℝ) = z * 100 := fun z => by ring
      rw [h001, hdiv, hdiv]
      nlinarith [hX2, hY2]
    calc Real.exp (-(((xCoord 4 i : ℚ):ℝ) * ((xCoord 4 i : ℚ):ℝ))/0.01
          - (((yCoord 4 j : ℚ):ℝ) * ((yCoord 4 j : ℚ):ℝ))/0.01)
        ≤ Real.exp (-196) := Real.exp_le_exp.mpr harg
      _ ≤ (1 + 196)⁻¹ := exp_neg_le_inv 196 (by norm_num)
      _ < 1/100 := by norm_num

/-- Claim C3 (witness): the amended statement at the near-origin cell
`(2,2)` of the `4 × 4` grid. -/
theorem c3_init_gaussian_witness :
    xCoord 4 2 < -1 ∧ uInitGauss 4 4 2 2 < 1/100 :=
  c3_init_gaussian_amended 2 2 (by decide) (by decide) (by decide) (by decide)

/-- Claim C4 (code_bug): a halo exchange is claimed to fill rank 0's
ghost cell at `(nxLocal+1, r)` with rank 1's pre-exchange `(1, r)` for
every row `r` in `1..ny`, the payload being rows `1..ny` with ghost
rows excluded.  With `nxLocal = 2`, `ny = 4`, rank 0's buffer all zero
and rank 1's buffer `colProbe` (value `5` at `(1,4)`), rank 0's ghost
cell `(3,4)` does not receive `colProbe 1 4`, while ghost row `0` does
receive `colProbe 1 0`: the transferred window is rows `0..ny-1`. -/
theorem c4_exchange_window_shifted :
    (exchangeBuf 4 2 zeroField colProbe).1 3 4 ≠ colProbe 1 4
    ∧ (exchangeBuf 4 2 zeroField colProbe).1 3 0 = colProbe 1 0 := by
  constructor
  · rw [exchangeBuf_fst]
    norm_num [colProbe, zeroField]
  · rw [exchangeBuf_fst]
    norm_num [colProbe]

/-- Claim C5 (confirmed): the stencil loop sets, exactly at the owned
interior cells `1 ≤ i ≤ nxLocal`, `1 ≤ j ≤ ny` and at no other cell,
`next[i][j] = 2·current[i][j] + previous[i][j] + csq·dtdxsq·
(current[i+1][j] + current[i-1][j] + current[i][j+1] + current[i][j-1]
- 4·current[i][j])` — the 5-point Laplacian formed in the source as the
sum of the x and y second differences — with the literal `+previous`
term; every other cell of `next` is left unchanged. -/
theorem c5_stencil_update (nxn ny : ℤ) (csq dtdxsq : ℚ)
    (uold ucur unew : Field) (a b : ℤ) :
    computeUnew nxn ny csq dtdxsq uold ucur unew a b
      = if 1 ≤ a ∧ a ≤ nxn ∧ 1 ≤ b ∧ b ≤ ny then
          2 * ucur a b + uold a b
            + csq * dtdxsq *
              (ucur (a+1) b + ucur (a-1) b + ucur a (b+1) + ucur a (b-1)
                - 4 * ucur a b)
        else unew a b := by
  rw [computeUnew_apply]
  split_ifs with h
  · ring
  · rfl

/-- Claim C6 (confirmed): for every even `nx`, the two ranks' owned
global column ranges are contiguous, non-overlapping, and their union
is exactly `1..nx`. -/
theorem c6_decomposition_covers (nx : ℕ) (h : nx % 2 = 0) :
    Disjoint (ownedCols nx 0) (ownedCols nx 1)
    ∧ ownedCols nx 0 ∪ ownedCols nx 1 = Finset.Icc 1 (nx : ℤ)
    ∧ gixsOf nx 1 = gixeOf nx 0 + 1 := by
  have h2 : ((nx / 2 : ℕ) : ℤ) * 2 = (nx : ℤ) := by omega
  refine ⟨?_, ?_, ?_⟩
  · rw [Finset.disjoint_left]
    intro x hx hx'
    simp only [ownedCols, Finset.mem_Icc, gixsOf, gixeOf, nxnomOf] at hx hx'
    omega
  · ext x
    simp only [ownedCols, Finset.mem_union, Finset.mem_Icc, gixsOf, gixeOf, nxnomOf]
    omega
  · simp only [gixsOf, gixeOf, nxnomOf]
    ring

/-- Claim C6 (witness): the decomposition coverage at `nx = 4`. -/
theorem c6_decomposition_witness :
    Disjoint (ownedCols 4 0) (ownedCols 4 1)
    ∧ ownedCols 4 0 ∪ ownedCols 4 1 = Finset.Icc 1 (4 : ℤ)
    ∧ gixsOf 4 1 = gixeOf 4 0 + 1 :=
  c6_decomposition_covers 4 (by decide)

/-- Claim C7 (counterexample): the boundary application is claimed to
leave every cell of the interface column unchanged, but on rank 0 with
`nxLocal = 2`, `ny = 4` the interface-column corner cell `(3,0)` of a
constant-one buffer is zeroed by the corner assignments. -/
theorem c7_interface_corner_zeroed :
    bcRank0 2 4 onesF 3 0 ≠ onesF 3 0 := by
  rw [bcRank0_apply]
  norm_num [onesF]

/-- Claim C7 (corrected): the boundary application leaves the interface
column unchanged in the interior rows `1..ny` only — on rank 0 column
`nxLocal+1`, on rank 1 column `0` — while its two corner cells (rows
`0` and `ny+1`) are zeroed as part of the physical top/bottom rows; the
rank's physical edge rows `0` and `ny+1` and its physical edge column
(column `0` on rank 0, column `nxLocal+1` on rank 1) are zeroed in
full.  The same zeroing is applied to both buffers (`bcRank0`/`bcRank1`
act on one buffer; the source applies them to `uold` and `ucur`). -/
theorem c7_boundary_amended (nxn ny : ℤ) (f : Field) (b : ℤ)
    (hn : 1 ≤ nxn) (hb1 : 1 ≤ b) (hb2 : b ≤ ny) :
    bcRank0 nxn ny f (nxn + 1) b = f (nxn + 1) b
    ∧ bcRank1 nxn ny f 0 b = f 0 b
    ∧ bcRank0 nxn ny f (nxn + 1) 0 = 0
    ∧ bcRank0 nxn ny f (nxn + 1) (ny + 1) = 0
    ∧ bcRank1 nxn ny f 0 0 = 0
    ∧ bcRank1 nxn ny f 0 (ny + 1) = 0
    ∧ (∀ a, 0 ≤ a → a ≤ nxn + 1 →
        bcRank0 nxn ny f a 0 = 0 ∧ bcRank0 nxn ny f a (ny + 1) = 0
        ∧ bcRank1 nxn ny f a 0 = 0 ∧ bcRank1 nxn ny f a (ny + 1) = 0)
    ∧ (∀ c, 0 ≤ c → c ≤ ny + 1 →
        bcRank0 nxn ny f 0 c = 0 ∧ bcRank1 nxn ny f (nxn + 1) c = 0) := by
  refine ⟨?_, ?_, ?_, ?_, ?_, ?_, fun a ha1 ha2 => ⟨?_, ?_, ?_, ?_⟩,
    fun c hc1 hc2 => ⟨?_, ?_⟩⟩
  · rw [bcRank0_apply, if_neg (by omega)]
  · rw [bcRank1_apply, if_neg (by omega)]
  · rw [bcRank0_apply, if_pos (by omega)]
  · rw [bcRank0_apply, if_pos (by omega)]
  · rw [bcRank1_apply, if_pos (by omega)]
  · rw [bcRank1_apply, if_pos (by omega)]
  · rw [bcRank0_apply, if_pos (by omega)]
  · rw [bcRank0_apply, if_pos (by omega)]
  · rw [bcRank1_apply, if_pos (by omega)]
  · rw [bcRank1_apply, if_pos (by omega)]
  · rw [bcRank0_apply, if_pos (by omega)]
  · rw [bcRank1_apply, if_pos (by omega)]

/-- Claim C7 (witness): on rank 0 with `nxLocal = 2`, `ny = 4`, the
interface-column cell `(3,2)` of a constant-one buffer is unchanged. -/
theorem c7_boundary_witness : bcRank0 2 4 onesF 3 2 = onesF 3 2 :=
  (c7_boundary_amended 2 4 onesF 2 (by decide) (by decide) (by decide)).1

/-- Claim C8 (confirmed): for every `ny`, the two ranks' halo-exchange
call sequences (rank 0: send tag 0 then receive tag 1; rank 1: receive
tag 0 then send tag 1, each of `ny` values) complete under synchronous
blocking rendezvous execution — no deadlock. -/
theorem c8_halo_no_deadlock (ny : ℕ) :
    syncRun (rank0Halo ny) (rank1Halo ny) = true := by
  simp [syncRun, rank0Halo, rank1Halo]

/-- Claim C9 (code_bug): the row-pointer setup loop
`for (i=0; i<=gnx; i++)` writes index `gnx` although the tables hold
`gnx` entries (valid indices `0..gnx-1`): at `nx = 4`, index
`gnxOf 4 = 4` is written but is not at most `gnxOf 4 - 1 = 3`. -/
theorem c9_row_setup_out_of_bounds :
    (gnxOf 4) ∈ rowSetupIdx 4 ∧ ¬((gnxOf 4) ≤ gnxOf 4 - 1) := by
  constructor
  · simp [rowSetupIdx, mem_intRange, gnxOf, nxnomOf]
  · simp [gnxOf, nxnomOf]

/-- Claim C10 (code_bug): the reduce utility's abort guard also tests
`nxnom` and `nynom`, which are assigned only after the guard; with
`nx = ny = 2`, `nprocs = 2` the computed processor grid is `1 × 1`
(nonzero in both axes), yet when the indeterminate initial contents of
`nxnom` are `0` the guard aborts anyway — the guard is not equivalent
to "a processor-grid dimension is zero". -/
theorem c10_reduce_abort_guard_reads_junk :
    reduceAborts 2 2 2 0 0 = true ∧ nxprocsOf 2 2 2 = 1 ∧ nyprocsOf 2 2 2 = 1 := by
  refine ⟨?_, ?_, ?_⟩ <;> decide

/-- Claim C1 (code_bug): for `nx = ny = 4` and one time step, with the
same initial data (constant `1`) fed to both, the two-rank run stitched
by global column index differs from the serial reference at the global
interior cell `(2,4)`: the halo exchange transfers the element window
at row offsets `0..ny-1`, so the ghost cells of row `ny` are stale
during the bootstrap and the stencil update. -/
theorem c1_stitched_differs_from_serial :
    stitched 4 (runParallel 4 4 10 onesInit 1) 2 4
      ≠ (runSerial 4 4 10 onesInit 1).ucur 2 4 := by
  norm_num [stitched, runParallel, runSerial, Function.iterate_one, stepPair, stepSerial,
    applyBCs, stencilSt, rotateSt_ucur, rotateSt_uold, rotateSt_unew, computeUnew_apply,
    exchangeBuf_fst, exchangeBuf_snd, bcRank0_apply, bcRank1_apply, bcSerial_apply,
    bootstrapUcur_ucur, bootstrapUcur_uold, bootstrapUcur_unew,
    initUoldRank_apply, initUoldSerial_apply, nxnomOf, gixsOf, gixeOf,
    dtOf, dxOf, dtdxsqOf, csqC, cSpeed, onesInit, zeroField, initSt]


end WaveToy
